import Mathlib

/-!
Shallow embedding of the application lifecycle controller of the
HomeSage rental app (src/server/src/controllers/applicationControllers.ts):
`listApplications`, `createApplication`, `updateApplicationStatus`, and the
nested helper `calculateNextPaymentDate`.

Dates model JavaScript `Date` values at day granularity as calendar triples
(year, zero-based month, one-based day); the JS setters `setMonth` and
`setFullYear` normalize an out-of-range day by carrying it into the
following month, which `mkDate` reproduces.  The persistent store is a
record of lists of rows, and each controller is a pure function from a
request and a store to a response and an updated store.
-/

structure Date where
  year : Nat
  month : Nat
  day : Nat
deriving DecidableEq, Repr

/-- Lexicographic order on calendar triples; agrees with JS timestamp
comparison on normalized dates. -/
def Date.leB (a b : Date) : Bool :=
  decide (a.year < b.year ∨ (a.year = b.year ∧
    (a.month < b.month ∨ (a.month = b.month ∧ a.day ≤ b.day))))

/-- Strict lexicographic order on calendar triples. -/
def Date.ltB (a b : Date) : Bool :=
  decide (a.year < b.year ∨ (a.year = b.year ∧
    (a.month < b.month ∨ (a.month = b.month ∧ a.day < b.day))))

def isLeap (y : Nat) : Bool :=
  (y % 4 == 0 && y % 100 != 0) || (y % 400 == 0)

/-- Number of days of the zero-based month `m` of year `y`. -/
def daysInMonth (y m : Nat) : Nat :=
  if m = 1 then (if isLeap y then 29 else 28)
  else if m = 3 ∨ m = 5 ∨ m = 8 ∨ m = 10 then 30
  else 31

/-- JS Date normalization for a (year, month, day) with an arbitrary month
and a day that may exceed the month length by at most a few days (as
produced by `setMonth` and `setFullYear` on a valid date): the month is
reduced modulo 12 into the year, and an overflowing day carries into the
following month. -/
def mkDate (y m d : Nat) : Date :=
  if d ≤ daysInMonth (y + m / 12) (m % 12) then
    ⟨y + m / 12, m % 12, d⟩
  else
    ⟨y + m / 12 + (m % 12 + 1) / 12, (m % 12 + 1) % 12,
      d - daysInMonth (y + m / 12) (m % 12)⟩

/-- JS `d.setMonth(d.getMonth() + 1)`. -/
def addOneMonth (d : Date) : Date :=
  mkDate d.year (d.month + 1) d.day

/-- JS `d.setFullYear(d.getFullYear() + 1)`. -/
def addOneYear (d : Date) : Date :=
  mkDate (d.year + 1) d.month d.day

/-- The date `k` calendar months after `d`, computed in one step
(JS `new Date(year, month + k, day)` semantics). -/
def addMonths (d : Date) (k : Nat) : Date :=
  mkDate d.year (d.month + k) d.day

def monthIndex (d : Date) : Nat := 12 * d.year + d.month

theorem daysInMonth_ge (y m : Nat) : 28 ≤ daysInMonth y m := by
  unfold daysInMonth
  split
  · split <;> omega
  · split <;> omega

theorem mkDate_mi (y m d : Nat) :
    (mkDate y m d).month < 12 ∧
      (12 * (mkDate y m d).year + (mkDate y m d).month = 12 * y + m ∨
        12 * (mkDate y m d).year + (mkDate y m d).month = 12 * y + m + 1) := by
  unfold mkDate
  split
  · refine ⟨by simp; omega, Or.inl ?_⟩
    simp
    omega
  · refine ⟨by simp; omega, Or.inr ?_⟩
    simp
    omega

theorem leB_year {a b : Date} (h : Date.leB a b = true) : a.year ≤ b.year := by
  simp [Date.leB] at h
  omega

theorem addOneMonth_measure (s today : Date) (h : s.year ≤ today.year) :
    (12 * today.year + today.month + 14) -
        (12 * (addOneMonth s).year + min (addOneMonth s).month 12) <
      (12 * today.year + today.month + 14) - (12 * s.year + min s.month 12) := by
  have hm := mkDate_mi s.year (s.month + 1) s.day
  have h1 : addOneMonth s = mkDate s.year (s.month + 1) s.day := rfl
  rw [h1]
  rcases hm with ⟨hlt, hmi | hmi⟩ <;> omega

/-- The nested helper of `listApplications`: starting from the lease start
date, repeatedly advance by one calendar month while the running date is
not strictly after `today`. -/
def calculateNextPaymentDate (startDate today : Date) : Date :=
  if Date.leB startDate today then
    calculateNextPaymentDate (addOneMonth startDate) today
  else startDate
termination_by
  (12 * today.year + today.month + 14) - (12 * startDate.year + min startDate.month 12)
decreasing_by
  exact addOneMonth_measure startDate today (leB_year (by assumption))

theorem calcNext_step (s n : Date) (h : Date.leB s n = true) :
    calculateNextPaymentDate s n = calculateNextPaymentDate (addOneMonth s) n := by
  rw [calculateNextPaymentDate]
  simp [h]

theorem calcNext_done (s n : Date) (h : Date.leB s n = false) :
    calculateNextPaymentDate s n = s := by
  rw [calculateNextPaymentDate]
  simp [h]

/-! ## Data model

Rows of the persistent store, with the fields the controllers read or
write.  The many optional extended-profile fields of `Application` are
persisted verbatim by `createApplication` and never read by any control
path, so they are not tracked. -/

structure PropertyRecord where
  id : Nat
  pricePerMonth : Int
  securityDeposit : Int
  managerCognitoId : String
  tenants : List String
deriving DecidableEq, Repr

structure TenantRecord where
  cognitoId : String
deriving DecidableEq, Repr

structure AppRecord where
  id : Nat
  applicationDate : Date
  status : String
  propertyId : Nat
  tenantCognitoId : String
  name : String
  email : String
  phoneNumber : String
  leaseId : Option Nat
deriving DecidableEq, Repr

structure LeaseRecord where
  id : Nat
  startDate : Date
  endDate : Date
  rent : Int
  deposit : Int
  propertyId : Nat
  tenantCognitoId : String
deriving DecidableEq, Repr

structure DB where
  properties : List PropertyRecord
  tenants : List TenantRecord
  applications : List AppRecord
  leases : List LeaseRecord
  nextAppId : Nat
  nextLeaseId : Nat
deriving DecidableEq, Repr

/-- Request body of `createApplication`; absent JSON fields are `none`. -/
structure CreatePayload where
  applicationDate : Option Date
  status : Option String
  propertyId : Option Nat
  tenantCognitoId : Option String
  name : Option String
  email : Option String
  phoneNumber : Option String
  message : Option String
deriving Repr

/-- JS truthiness of an optional string (`undefined` and `""` are falsy). -/
def strTruthy : Option String → Bool
  | none => false
  | some s => !(s == "")

/-- JS truthiness of an optional number (`undefined` and `0` are falsy). -/
def natTruthy : Option Nat → Bool
  | none => false
  | some n => !(n == 0)

/-- JS `x || d` for an optional string value. -/
def strOr (o : Option String) (d : String) : String :=
  match o with
  | none => d
  | some s => if s == "" then d else s

def isJsSpace (c : Char) : Bool :=
  c == ' ' || c == '\t' || c == '\n' || c == '\r' || c == '\x0b' || c == '\x0c'

/-- The test `/^[^\s@]+@[^\s@]+\.[^\s@]+$/.test s`: exactly one `@`, a
nonempty whitespace-free local part, and a whitespace-free domain part
containing a dot that is neither its first nor its last character. -/
def emailRegexTest (s : String) : Bool :=
  match (s.toList.dropWhile (fun c => !(c == '@'))) with
  | [] => false
  | _ :: domainPart =>
    !(s.toList.takeWhile (fun c => !(c == '@'))).isEmpty &&
      (s.toList.takeWhile (fun c => !(c == '@'))).all (fun c => !isJsSpace c) &&
      domainPart.all (fun c => !(isJsSpace c || c == '@')) &&
      ((domainPart.drop 1).dropLast.contains '.')

inductive CreateResult where
  | missingFields
  | invalidEmail
  | propertyNotFound
  | tenantNotFound
  | duplicateApproved
  | duplicatePending
  | created (app : AppRecord)
deriving DecidableEq, Repr

/-- The row inserted by `prisma.application.create` in `createApplication`:
`applicationDate` defaults to now, `status` to "Pending" (JS `||`), and no
lease is connected. -/
def newApplicationRecord (p : CreatePayload) (now : Date) (db : DB) : AppRecord :=
  { id := db.nextAppId
    applicationDate := p.applicationDate.getD now
    status := strOr p.status "Pending"
    propertyId := p.propertyId.getD 0
    tenantCognitoId := p.tenantCognitoId.getD ""
    name := p.name.getD ""
    email := p.email.getD ""
    phoneNumber := p.phoneNumber.getD ""
    leaseId := none }

/-- The `POST /applications` controller `createApplication`. -/
def createApplication (p : CreatePayload) (now : Date) (db : DB) :
    CreateResult × DB :=
  if !(natTruthy p.propertyId && strTruthy p.tenantCognitoId && strTruthy p.name
      && strTruthy p.email && strTruthy p.phoneNumber) then
    (.missingFields, db)
  else if !emailRegexTest (p.email.getD "") then
    (.invalidEmail, db)
  else
    match db.properties.find? (fun pr => pr.id == p.propertyId.getD 0) with
    | none => (.propertyNotFound, db)
    | some _ =>
      match db.tenants.find? (fun t => t.cognitoId == p.tenantCognitoId.getD "") with
      | none => (.tenantNotFound, db)
      | some _ =>
        match db.applications.find? (fun a =>
            a.propertyId == p.propertyId.getD 0 &&
            a.tenantCognitoId == p.tenantCognitoId.getD "" &&
            (a.status == "Pending" || a.status == "Approved")) with
        | some existingApplication =>
          if existingApplication.status == "Approved" then (.duplicateApproved, db)
          else (.duplicatePending, db)
        | none =>
          (.created (newApplicationRecord p now db),
            { db with
                applications := db.applications ++ [newApplicationRecord p now db],
                nextAppId := db.nextAppId + 1 })

inductive UpdateResult where
  | invalidStatus
  | applicationNotFound
  | cannotModifyApproved
  | leaseAlreadyExists
  | activeLeaseExists
  | serverError
  | updated (app : Option AppRecord)
deriving DecidableEq, Repr

def validStatuses : List String := ["Pending", "Approved", "Denied"]

/-- The `include: \x7b lease \x7d` join on the application row. -/
def joinedLease (app : AppRecord) (db : DB) : Option LeaseRecord :=
  app.leaseId.bind (fun lid => db.leases.find? (fun l => l.id == lid))

/-- The `prisma.lease.findFirst` query for an active or future lease on the
same (property, tenant) pair: `endDate: \x7b gte: new Date() \x7d`. -/
def findActiveLease (app : AppRecord) (now : Date) (db : DB) : Option LeaseRecord :=
  db.leases.find? (fun l =>
    l.propertyId == app.propertyId && l.tenantCognitoId == app.tenantCognitoId &&
      Date.leB now l.endDate)

/-- The lease row created inside the approval transaction. -/
def newLeaseRecord (app : AppRecord) (prop : PropertyRecord) (now : Date) (db : DB) :
    LeaseRecord :=
  { id := db.nextLeaseId
    startDate := now
    endDate := addOneYear now
    rent := prop.pricePerMonth
    deposit := prop.securityDeposit
    propertyId := app.propertyId
    tenantCognitoId := app.tenantCognitoId }

/-- The body of `prisma.$transaction` in the approval path: create the
lease, connect the tenant to the property, set the application to the new
status with the new lease id, then deny every other still-pending
application on the same property. -/
def approveTransaction (id : Nat) (s : String) (app : AppRecord)
    (prop : PropertyRecord) (now : Date) (db : DB) : DB :=
  { db with
      leases := db.leases ++ [newLeaseRecord app prop now db]
      nextLeaseId := db.nextLeaseId + 1
      properties := db.properties.map (fun pr =>
        if pr.id == app.propertyId then
          { pr with tenants :=
              if pr.tenants.contains app.tenantCognitoId then pr.tenants
              else pr.tenants ++ [app.tenantCognitoId] }
        else pr)
      applications :=
        (db.applications.map (fun a =>
          if a.id == id then { a with status := s, leaseId := some db.nextLeaseId }
          else a)).map (fun a =>
            if a.propertyId == app.propertyId && !(a.id == id) && a.status == "Pending"
            then { a with status := "Denied" } else a) }

/-- The `PUT /applications/:id/status` controller `updateApplicationStatus`.
`serverError` models the uncaught exception (500) raised when the required
property relation of the application row cannot be resolved. -/
def updateApplicationStatus (id : Nat) (status : Option String) (now : Date)
    (db : DB) : UpdateResult × DB :=
  match status with
  | none => (.invalidStatus, db)
  | some s =>
    if !(validStatuses.contains s) then (.invalidStatus, db)
    else
      match db.applications.find? (fun a => a.id == id) with
      | none => (.applicationNotFound, db)
      | some app =>
        if app.status == "Approved" && !(s == "Approved") then
          (.cannotModifyApproved, db)
        else if (joinedLease app db).isSome && s == "Approved" then
          (.leaseAlreadyExists, db)
        else if s == "Approved" then
          match findActiveLease app now db with
          | some _ => (.activeLeaseExists, db)
          | none =>
            match db.properties.find? (fun pr => pr.id == app.propertyId) with
            | none => (.serverError, db)
            | some prop =>
              ((approveTransaction id s app prop now db).applications.find?
                  (fun a => a.id == id) |> .updated,
                approveTransaction id s app prop now db)
        else
          (((db.applications.map (fun a =>
              if a.id == id then { a with status := s } else a)).find?
                (fun a => a.id == id)) |> .updated,
            { db with applications := db.applications.map (fun a =>
                if a.id == id then { a with status := s } else a) })

/-- One row of the response of `listApplications`: the application joined
with its property, tenant, most recent lease for the (tenant, property)
pair, and the derived next payment date. -/
structure AppView where
  app : AppRecord
  property : Option PropertyRecord
  tenant : Option TenantRecord
  lease : Option LeaseRecord
  nextPaymentDate : Option Date
deriving DecidableEq, Repr

/-- The `prisma.lease.findFirst` with `orderBy: \x7b startDate: "desc" \x7d`:
among the leases of the (tenant, property) pair, one with the maximal start
date (the earliest such row on ties). -/
def latestLease (tid : String) (pid : Nat) (leases : List LeaseRecord) :
    Option LeaseRecord :=
  (leases.filter (fun l => l.tenantCognitoId == tid && l.propertyId == pid)).foldl
    (fun acc l =>
      match acc with
      | none => some l
      | some b => if Date.ltB b.startDate l.startDate then some l else some b)
    none

/-- The `GET /applications` controller `listApplications`. -/
def listApplications (userId userType : Option String) (now : Date) (db : DB) :
    List AppView :=
  (if strTruthy userId && strTruthy userType then
    if userType == some "tenant" then
      db.applications.filter (fun a => a.tenantCognitoId == userId.getD "")
    else if userType == some "manager" then
      db.applications.filter (fun a =>
        match db.properties.find? (fun pr => pr.id == a.propertyId) with
        | some pr => pr.managerCognitoId == userId.getD ""
        | none => false)
    else db.applications
  else db.applications).map (fun a =>
    { app := a
      property := db.properties.find? (fun pr => pr.id == a.propertyId)
      tenant := db.tenants.find? (fun t => t.cognitoId == a.tenantCognitoId)
      lease := latestLease a.tenantCognitoId a.propertyId db.leases
      nextPaymentDate := (latestLease a.tenantCognitoId a.propertyId db.leases).map
        (fun l => calculateNextPaymentDate l.startDate now) })

/-! ## Concrete states used by witnesses and counterexamples -/

def d0 : Date := ⟨2025, 0, 15⟩

def nowMid : Date := ⟨2025, 5, 1⟩

def prop1 : PropertyRecord := ⟨1, 1000, 500, "M1", []⟩

def ten1 : TenantRecord := ⟨"T1"⟩

def ten2 : TenantRecord := ⟨"T2"⟩

def dbEmpty : DB := ⟨[prop1], [ten1, ten2], [], [], 1, 1⟩

def payloadApproved : CreatePayload :=
  ⟨none, some "Approved", some 1, some "T1", some "A", some "a@b.com",
    some "555-0100", none⟩

def payloadPlain : CreatePayload :=
  ⟨none, none, some 1, some "T1", some "A", some "a@b.com", some "555-0100", none⟩

def appApproved : AppRecord :=
  ⟨1, d0, "Approved", 1, "T1", "A", "a@b.com", "555-0100", some 1⟩

def leaseActive : LeaseRecord :=
  ⟨1, ⟨2025, 0, 20⟩, ⟨2026, 0, 20⟩, 1000, 500, 1, "T1"⟩

def dbApproved : DB := ⟨[prop1], [ten1, ten2], [appApproved], [leaseActive], 2, 2⟩

def appP : AppRecord := ⟨1, ⟨2025, 0, 10⟩, "Pending", 1, "T1", "A", "a@b.com", "555-0100", none⟩

def appQ : AppRecord := ⟨2, ⟨2025, 0, 11⟩, "Pending", 1, "T2", "B", "b@c.com", "555-0200", none⟩

def dbPending : DB := ⟨[prop1], [ten1, ten2], [appP, appQ], [], 3, 1⟩


/-! ## Claims -/

/-- C1: the claim states every accepted submission yields an Application
with status Pending regardless of the payload, but `createApplication`
persists a caller-supplied status (`status || "Pending"` is only a
default): the payload with `status = "Approved"` is accepted and the
created Application has status "Approved".  The leaseId-null and
no-Lease-created parts do hold, as shown by the same evaluation. -/
theorem claim_C1_caller_status_persisted :
    (createApplication payloadApproved d0 dbEmpty).1 =
      CreateResult.created ⟨1, d0, "Approved", 1, "T1", "A", "a@b.com", "555-0100", none⟩ ∧
    (createApplication payloadApproved d0 dbEmpty).2.leases = [] := by
  constructor
  · decide
  · decide

/-- C8: for an absent status or a status string outside
Pending/Approved/Denied, `updateApplicationStatus` returns the
InvalidStatus error with the store untouched, and the result is the same
for every store, so no store read or write takes part in it. -/
theorem claim_C8_invalid_status_rejected_before_store
    (id : Nat) (s : Option String) (now : Date) (db : DB)
    (h : s = none ∨ ∃ str, s = some str ∧ validStatuses.contains str = false) :
    updateApplicationStatus id s now db = (.invalidStatus, db) := by
  rcases h with rfl | ⟨str, rfl, hc⟩
  · rfl
  · have hmem : str ∉ validStatuses := by simpa using hc
    unfold updateApplicationStatus
    simp [hmem]

theorem claim_C8_witness :
    updateApplicationStatus 1 (some "approved") d0 dbPending =
      (.invalidStatus, dbPending) :=
  claim_C8_invalid_status_rejected_before_store 1 (some "approved") d0 dbPending
    (Or.inr ⟨"approved", rfl, by decide⟩)

/-- C9: updating an existing, not-yet-Approved application to Denied or
Pending only rewrites that application row's status field: the store
afterwards differs from the store before only by that single-field map,
every other application row is kept as is, and no leaseId, lease row or
property row changes. -/
theorem claim_C9_non_approved_update_frame
    (id : Nat) (s : String) (now : Date) (db : DB) (app : AppRecord)
    (hs : s = "Denied" ∨ s = "Pending")
    (happ : db.applications.find? (fun a => a.id == id) = some app)
    (hterm : app.status ≠ "Approved") :
    (updateApplicationStatus id (some s) now db).2 =
      { db with applications := db.applications.map (fun a =>
          if a.id == id then { a with status := s } else a) } ∧
    (∀ a ∈ db.applications, a.id ≠ id →
      a ∈ (updateApplicationStatus id (some s) now db).2.applications) ∧
    (updateApplicationStatus id (some s) now db).2.applications.map AppRecord.leaseId
      = db.applications.map AppRecord.leaseId ∧
    (updateApplicationStatus id (some s) now db).2.leases = db.leases ∧
    (updateApplicationStatus id (some s) now db).2.properties = db.properties := by
  have hupd : (updateApplicationStatus id (some s) now db).2 =
      { db with applications := db.applications.map (fun a =>
          if a.id == id then { a with status := s } else a) } := by
    rcases hs with rfl | rfl <;>
    · unfold updateApplicationStatus
      simp [happ, hterm, validStatuses]
  refine ⟨hupd, ?_, ?_, by rw [hupd], by rw [hupd]⟩
  · intro a ha hne
    rw [hupd]
    have : a ∈ db.applications.map (fun a =>
        if a.id == id then { a with status := s } else a) := by
      have := List.mem_map_of_mem
        (fun a : AppRecord => if a.id == id then { a with status := s } else a) ha
      simpa [hne] using this
    simpa using this
  · rw [hupd]
    simp only [List.map_map]
    apply List.map_congr_left
    intro a _
    by_cases hne : a.id = id <;> simp [hne]

theorem claim_C9_witness :
    (updateApplicationStatus 2 (some "Denied") d0 dbPending).2 =
      { dbPending with applications := dbPending.applications.map (fun a =>
          if a.id == 2 then { a with status := "Denied" } else a) } :=
  (claim_C9_non_approved_update_frame 2 "Denied" d0 dbPending appQ
    (Or.inl rfl) (by decide) (by decide)).1

/-- C10: when the userId or userType selector is absent (JS-falsy) or the
userType is neither "tenant" nor "manager", `listApplications` applies the
empty filter and returns a view row for every application in the store. -/
theorem claim_C10_missing_selector_returns_all
    (userId userType : Option String) (now : Date) (db : DB)
    (h : strTruthy userId = false ∨ strTruthy userType = false ∨
      (userType ≠ some "tenant" ∧ userType ≠ some "manager")) :
    (listApplications userId userType now db).map AppView.app = db.applications := by
  unfold listApplications
  rcases h with h | h | ⟨h1, h2⟩
  · simp [h, List.map_map, Function.comp_def]
  · simp [h, List.map_map, Function.comp_def]
  · cases hb : strTruthy userId && strTruthy userType <;>
      simp [hb, h1, h2, List.map_map, Function.comp_def]

theorem claim_C10_witness :
    (listApplications none (some "tenant") d0 dbPending).map AppView.app =
      dbPending.applications :=
  claim_C10_missing_selector_returns_all none (some "tenant") d0 dbPending
    (Or.inl rfl)

/-- C3: the claim says every status-update call on an Approved application,
including one with target Approved, fails with CannotModifyApproved; the
guard is `status === "Approved" && newStatus !== "Approved"`, so re-approving
the Approved application 1 (which holds lease 1) fails with the
LeaseAlreadyExists error instead. -/
theorem claim_C3_counterexample :
    appApproved.status = "Approved" ∧
    dbApproved.applications.find? (fun a => a.id == 1) = some appApproved ∧
    (updateApplicationStatus 1 (some "Approved") nowMid dbApproved).1 =
      UpdateResult.leaseAlreadyExists ∧
    (updateApplicationStatus 1 (some "Approved") nowMid dbApproved).1 ≠
      UpdateResult.cannotModifyApproved := by
  refine ⟨rfl, by decide, by decide, by decide⟩

/-- C3 (amended): once an application is Approved, a status-update call
with target Pending or Denied fails with CannotModifyApproved and leaves
the store unchanged; a call with target Approved is also rejected with the
store unchanged, but through the LeaseAlreadyExists error, whenever the
application has a linked lease row. -/
theorem claim_C3_amended_terminal_approved
    (id : Nat) (now : Date) (db : DB) (app : AppRecord)
    (happ : db.applications.find? (fun a => a.id == id) = some app)
    (hst : app.status = "Approved") :
    (∀ s, s = "Pending" ∨ s = "Denied" →
      updateApplicationStatus id (some s) now db = (.cannotModifyApproved, db)) ∧
    ((joinedLease app db).isSome = true →
      updateApplicationStatus id (some "Approved") now db = (.leaseAlreadyExists, db)) := by
  constructor
  · intro s hs
    rcases hs with rfl | rfl <;>
    · unfold updateApplicationStatus
      simp [happ, hst, validStatuses]
  · intro hj
    unfold updateApplicationStatus
    simp [happ, hst, hj, validStatuses]

theorem claim_C3_witness :
    updateApplicationStatus 1 (some "Pending") nowMid dbApproved =
      (.cannotModifyApproved, dbApproved) :=
  (claim_C3_amended_terminal_approved 1 nowMid dbApproved appApproved
    (by decide) rfl).1 "Pending" (Or.inl rfl)

/-- C2: the claim says an approval is rejected with the ActiveLeaseExists
error whenever an active lease on the same (tenant, property) pair exists;
in the reachable state `dbApproved` an active lease on (T1, 1) exists, yet
re-approving application 1 is rejected through the earlier
LeaseAlreadyExists guard, not ActiveLeaseExists. -/
theorem claim_C2_counterexample :
    (∃ l ∈ dbApproved.leases, l.propertyId = appApproved.propertyId ∧
      l.tenantCognitoId = appApproved.tenantCognitoId ∧
      Date.leB nowMid l.endDate = true) ∧
    dbApproved.applications.find? (fun a => a.id == 1) = some appApproved ∧
    (updateApplicationStatus 1 (some "Approved") nowMid dbApproved).1 ≠
      UpdateResult.activeLeaseExists := by
  refine ⟨by decide, by decide, by decide⟩

/-- At most one lease per (property, tenant) pair is active (end date not
in the past) at time `now`. -/
def singleActiveLease (now : Date) (db : DB) : Prop :=
  db.leases.Pairwise (fun l1 l2 => ¬(l1.propertyId = l2.propertyId ∧
    l1.tenantCognitoId = l2.tenantCognitoId ∧
    Date.leB now l1.endDate = true ∧ Date.leB now l2.endDate = true))

theorem createApplication_leases (p : CreatePayload) (now : Date) (db : DB) :
    (createApplication p now db).2.leases = db.leases := by
  unfold createApplication
  repeat' split <;> try rfl

theorem updateApplicationStatus_leases (id : Nat) (status : Option String)
    (now : Date) (db : DB) :
    (updateApplicationStatus id status now db).2.leases = db.leases ∨
    (∃ app prop,
      db.applications.find? (fun a => a.id == id) = some app ∧
      findActiveLease app now db = none ∧
      db.properties.find? (fun pr => pr.id == app.propertyId) = some prop ∧
      (updateApplicationStatus id status now db).2.leases =
        db.leases ++ [newLeaseRecord app prop now db]) := by
  unfold updateApplicationStatus
  rcases status with _ | s
  · left; rfl
  rcases hv : validStatuses.contains s with _ | _
  · have hv2 : s ∉ validStatuses := by simpa using hv
    simp [hv2]
  have hv2 : s ∈ validStatuses := by simpa using hv
  rcases happ : db.applications.find? (fun a => a.id == id) with _ | app
  · simp [hv2, happ]
  simp only [hv, Bool.not_true, Bool.false_eq_true, if_false, happ]
  split
  · simp [hv2, happ]
  split
  · simp [hv2, happ]
  split
  · rcases hact : findActiveLease app now db with _ | l
    · rcases hprop : db.properties.find? (fun pr => pr.id == app.propertyId)
        with _ | prop
      · simp [hv2, happ, hact, hprop]
      · simp only [hv2, happ, hact, hprop]
        right
        exact ⟨app, prop, rfl, hact, hprop, rfl⟩
    · simp [hv2, happ, hact]
  · simp [hv2, happ]


/-- C2 (amended): the single-active-lease invariant itself is preserved by
every operation: both controllers that write the store keep at most one
active lease per (tenant, property) pair.  For the guard behavior, the
claim holds once the two earlier guards are out of the way: for an
application with no linked lease, approval is rejected with
ActiveLeaseExists exactly when an active lease on the pair exists, and
otherwise the transaction appends exactly one new lease row.  (As stated,
the claim is false: when the application already holds a linked lease the
rejection is LeaseAlreadyExists, see the counterexample.) -/
theorem claim_C2_amended_single_active_lease :
    (∀ (p : CreatePayload) (now : Date) (db : DB), singleActiveLease now db →
      singleActiveLease now (createApplication p now db).2) ∧
    (∀ (id : Nat) (status : Option String) (now : Date) (db : DB),
      singleActiveLease now db →
      singleActiveLease now (updateApplicationStatus id status now db).2) ∧
    (∀ (id : Nat) (now : Date) (db : DB) (app : AppRecord),
      db.applications.find? (fun a => a.id == id) = some app →
      app.leaseId = none →
      ((∃ l, findActiveLease app now db = some l) →
        updateApplicationStatus id (some "Approved") now db =
          (.activeLeaseExists, db)) ∧
      (findActiveLease app now db = none →
        ∀ prop, db.properties.find? (fun pr => pr.id == app.propertyId) = some prop →
          (updateApplicationStatus id (some "Approved") now db).2.leases =
            db.leases ++ [newLeaseRecord app prop now db])) := by
  refine ⟨?_, ?_, ?_⟩
  · intro p now db h
    unfold singleActiveLease at *
    rw [createApplication_leases]
    exact h
  · intro id status now db h
    rcases updateApplicationStatus_leases id status now db with
      heq | ⟨app, prop, happ, hact, hprop, heq⟩
    · unfold singleActiveLease at *
      rw [heq]
      exact h
    · unfold singleActiveLease at *
      rw [heq, List.pairwise_append]
      refine ⟨h, List.pairwise_singleton _ _, ?_⟩
      intro l hl b hb
      simp only [List.mem_singleton] at hb
      subst hb
      rintro ⟨hp, ht, hle1, _⟩
      have hact2 : db.leases.find? (fun l => l.propertyId == app.propertyId &&
          l.tenantCognitoId == app.tenantCognitoId && Date.leB now l.endDate)
          = none := hact
      have hforall := List.find?_eq_none.mp hact2 l hl
      apply hforall
      simp only [newLeaseRecord] at hp ht
      simp [hp, ht, hle1]
  · intro id now db app happ hnol
    have hjl : joinedLease app db = none := by simp [joinedLease, hnol]
    constructor
    · rintro ⟨l, hact⟩
      unfold updateApplicationStatus
      simp [happ, hjl, hact, validStatuses]
    · intro hact prop hprop
      unfold updateApplicationStatus
      simp [happ, hjl, hact, hprop, validStatuses]
      rfl

theorem claim_C2_witness :
    singleActiveLease d0 (updateApplicationStatus 1 (some "Approved") d0 dbPending).2 :=
  claim_C2_amended_single_active_lease.2.1 1 (some "Approved") d0 dbPending
    List.Pairwise.nil

/-- C5: with the field, email, property and tenant checks passing,
submission is rejected with a 409 conflict (DuplicateApproved or
DuplicatePending, matching the status of the blocking row) whenever some
existing application for the (tenant, property) pair is Pending or
Approved, and is accepted as a new Pending application (when the payload
carries no status, as the client form does) whenever every existing
application for the pair is Denied. -/
theorem claim_C5_duplicate_guard
    (p : CreatePayload) (now : Date) (db : DB)
    (hreq : (natTruthy p.propertyId && strTruthy p.tenantCognitoId && strTruthy p.name
      && strTruthy p.email && strTruthy p.phoneNumber) = true)
    (hemail : emailRegexTest (p.email.getD "") = true)
    (hprop : (db.properties.find? (fun pr => pr.id == p.propertyId.getD 0)).isSome = true)
    (hten : (db.tenants.find? (fun t =>
      t.cognitoId == p.tenantCognitoId.getD "")).isSome = true) :
    ((∃ a ∈ db.applications, a.propertyId = p.propertyId.getD 0 ∧
        a.tenantCognitoId = p.tenantCognitoId.getD "" ∧
        (a.status = "Pending" ∨ a.status = "Approved")) →
      ((createApplication p now db).1 = .duplicateApproved ∨
        (createApplication p now db).1 = .duplicatePending) ∧
      (createApplication p now db).2 = db) ∧
    ((∃ a ∈ db.applications, (a.propertyId = p.propertyId.getD 0 ∧
        a.tenantCognitoId = p.tenantCognitoId.getD "" ∧
        (a.status = "Pending" ∨ a.status = "Approved"))) →
      (∀ a ∈ db.applications, a.propertyId = p.propertyId.getD 0 →
        a.tenantCognitoId = p.tenantCognitoId.getD "" → a.status ≠ "Pending") →
      (createApplication p now db).1 = .duplicateApproved) ∧
    ((∃ a ∈ db.applications, (a.propertyId = p.propertyId.getD 0 ∧
        a.tenantCognitoId = p.tenantCognitoId.getD "" ∧
        (a.status = "Pending" ∨ a.status = "Approved"))) →
      (∀ a ∈ db.applications, a.propertyId = p.propertyId.getD 0 →
        a.tenantCognitoId = p.tenantCognitoId.getD "" → a.status ≠ "Approved") →
      (createApplication p now db).1 = .duplicatePending) ∧
    ((∀ a ∈ db.applications, a.propertyId = p.propertyId.getD 0 →
        a.tenantCognitoId = p.tenantCognitoId.getD "" → a.status = "Denied") →
      (createApplication p now db).1 = .created (newApplicationRecord p now db) ∧
      (createApplication p now db).2.applications =
        db.applications ++ [newApplicationRecord p now db] ∧
      (p.status = none → (newApplicationRecord p now db).status = "Pending") ∧
      (newApplicationRecord p now db).leaseId = none) := by
  obtain ⟨prRec, hpr⟩ := Option.isSome_iff_exists.mp hprop
  obtain ⟨tRec, htn⟩ := Option.isSome_iff_exists.mp hten
  have hfind : ∀ ex, db.applications.find? (fun a =>
      a.propertyId == p.propertyId.getD 0 &&
      a.tenantCognitoId == p.tenantCognitoId.getD "" &&
      (a.status == "Pending" || a.status == "Approved")) = some ex →
      ex ∈ db.applications ∧ ex.propertyId = p.propertyId.getD 0 ∧
        ex.tenantCognitoId = p.tenantCognitoId.getD "" ∧
        (ex.status = "Pending" ∨ ex.status = "Approved") := by
    intro ex hex
    have hmem := List.mem_of_find?_eq_some hex
    have hpred := List.find?_some hex
    simp at hpred
    exact ⟨hmem, hpred.1.1, hpred.1.2, hpred.2⟩
  have hsome : (∃ a ∈ db.applications, a.propertyId = p.propertyId.getD 0 ∧
      a.tenantCognitoId = p.tenantCognitoId.getD "" ∧
      (a.status = "Pending" ∨ a.status = "Approved")) →
      (db.applications.find? (fun a =>
        a.propertyId == p.propertyId.getD 0 &&
        a.tenantCognitoId == p.tenantCognitoId.getD "" &&
        (a.status == "Pending" || a.status == "Approved"))).isSome = true := by
    intro hex
    rw [List.find?_isSome]
    obtain ⟨a, ha, h1, h2, h3⟩ := hex
    exact ⟨a, ha, by simp [h1, h2, h3]⟩
  refine ⟨?_, ?_, ?_, ?_⟩
  · intro hex
    obtain ⟨ex, hdup⟩ := Option.isSome_iff_exists.mp (hsome hex)
    unfold createApplication
    simp only [hreq, Bool.not_true, Bool.false_eq_true, if_false, hemail, hpr, htn, hdup]
    by_cases hst : ex.status = "Approved" <;> simp [hst]
  · intro hex hall
    obtain ⟨ex, hdup⟩ := Option.isSome_iff_exists.mp (hsome hex)
    obtain ⟨hmem, h1, h2, h3⟩ := hfind ex hdup
    have hst : ex.status = "Approved" := by
      rcases h3 with h3 | h3
      · exact absurd h3 (hall ex hmem h1 h2)
      · exact h3
    unfold createApplication
    simp [hreq, hemail, hpr, htn, hdup, hst]
  · intro hex hall
    obtain ⟨ex, hdup⟩ := Option.isSome_iff_exists.mp (hsome hex)
    obtain ⟨hmem, h1, h2, h3⟩ := hfind ex hdup
    have hst : ex.status = "Pending" := by
      rcases h3 with h3 | h3
      · exact h3
      · exact absurd h3 (hall ex hmem h1 h2)
    unfold createApplication
    simp [hreq, hemail, hpr, htn, hdup, hst]
  · intro hall
    have hnone : db.applications.find? (fun a =>
        a.propertyId == p.propertyId.getD 0 &&
        a.tenantCognitoId == p.tenantCognitoId.getD "" &&
        (a.status == "Pending" || a.status == "Approved")) = none := by
      rw [List.find?_eq_none]
      intro a ha
      by_cases h1 : a.propertyId = p.propertyId.getD 0
      · by_cases h2 : a.tenantCognitoId = p.tenantCognitoId.getD ""
        · have := hall a ha h1 h2
          simp [h1, h2, this]
        · simp [h2]
      · simp [h1]
    unfold createApplication
    simp only [hreq, Bool.not_true, Bool.false_eq_true, if_false, hemail, hpr, htn, hnone]
    refine ⟨by simp, by simp, ?_, rfl⟩
    intro hps
    simp [newApplicationRecord, strOr, hps]

theorem claim_C5_witness :
    (createApplication payloadPlain d0 dbPending).1 = CreateResult.duplicatePending :=
  (claim_C5_duplicate_guard payloadPlain d0 dbPending (by decide) (by decide)
    (by decide) (by decide)).2.2.1 (by decide) (by decide)

theorem updateStatus_approved_state (id : Nat) (now : Date) (db : DB)
    (app : AppRecord) (prop : PropertyRecord)
    (happ : db.applications.find? (fun a => a.id == id) = some app)
    (hnol : app.leaseId = none)
    (hact : findActiveLease app now db = none)
    (hprop : db.properties.find? (fun pr => pr.id == app.propertyId) = some prop) :
    (updateApplicationStatus id (some "Approved") now db).2 =
      approveTransaction id "Approved" app prop now db := by
  have hjl : joinedLease app db = none := by simp [joinedLease, hnol]
  unfold updateApplicationStatus
  simp [happ, hjl, hact, hprop, validStatuses]

/-- C4: approving a pending application with no linked lease and no active
lease on its pair updates the store exactly as claimed: the approved row
gets status Approved and the new lease id, the tenant is added to the
property's membership list (idempotently), every other still-pending
application on the same property becomes Denied, and every sibling that is
already Denied or Approved is kept untouched (same status and leaseId). -/
theorem claim_C4_approval_transition
    (id : Nat) (now : Date) (db : DB) (app : AppRecord) (prop : PropertyRecord)
    (happ : db.applications.find? (fun a => a.id == id) = some app)
    (hpend : app.status = "Pending")
    (hnol : app.leaseId = none)
    (hact : findActiveLease app now db = none)
    (hprop : db.properties.find? (fun pr => pr.id == app.propertyId) = some prop) :
    (updateApplicationStatus id (some "Approved") now db).2.applications =
      db.applications.map (fun a =>
        if a.id = id then { a with status := "Approved", leaseId := some db.nextLeaseId }
        else if a.propertyId = app.propertyId ∧ a.status = "Pending" then
          { a with status := "Denied" }
        else a) ∧
    (updateApplicationStatus id (some "Approved") now db).2.leases =
      db.leases ++ [newLeaseRecord app prop now db] ∧
    (updateApplicationStatus id (some "Approved") now db).2.properties =
      db.properties.map (fun pr =>
        if pr.id = app.propertyId then
          { pr with tenants :=
              if app.tenantCognitoId ∈ pr.tenants then pr.tenants
              else pr.tenants ++ [app.tenantCognitoId] }
        else pr) ∧
    (∀ a ∈ db.applications, a.id ≠ id → a.status ≠ "Pending" →
      a ∈ (updateApplicationStatus id (some "Approved") now db).2.applications) := by
  have hupd := updateStatus_approved_state id now db app prop happ hnol hact hprop
  have happs : (updateApplicationStatus id (some "Approved") now db).2.applications =
      db.applications.map (fun a =>
        if a.id = id then { a with status := "Approved", leaseId := some db.nextLeaseId }
        else if a.propertyId = app.propertyId ∧ a.status = "Pending" then
          { a with status := "Denied" }
        else a) := by
    rw [hupd]
    unfold approveTransaction
    simp only [List.map_map]
    apply List.map_congr_left
    intro a _
    by_cases h1 : a.id = id
    · simp [h1]
    · by_cases h2 : a.propertyId = app.propertyId <;>
        by_cases h3 : a.status = "Pending" <;>
          simp [h1, h2, h3]
  refine ⟨happs, by rw [hupd]; rfl, ?_, ?_⟩
  · rw [hupd]
    unfold approveTransaction
    simp only
    apply List.map_congr_left
    intro pr _
    by_cases h1 : pr.id = app.propertyId <;>
      by_cases h2 : app.tenantCognitoId ∈ pr.tenants <;>
        simp [h1, h2]
  · intro a ha hne hnp
    rw [happs]
    have := List.mem_map_of_mem (fun a : AppRecord =>
      if a.id = id then { a with status := "Approved", leaseId := some db.nextLeaseId }
      else if a.propertyId = app.propertyId ∧ a.status = "Pending" then
        { a with status := "Denied" }
      else a) ha
    simpa [hne, hnp] using this

theorem claim_C4_witness :
    (updateApplicationStatus 1 (some "Approved") d0 dbPending).2.applications =
      dbPending.applications.map (fun a =>
        if a.id = 1 then { a with status := "Approved", leaseId := some dbPending.nextLeaseId }
        else if a.propertyId = appP.propertyId ∧ a.status = "Pending" then
          { a with status := "Denied" }
        else a) :=
  (claim_C4_approval_transition 1 d0 dbPending appP prop1 (by decide) rfl rfl
    (by decide) (by decide)).1

/-- C6: the lease created by a successful approval copies rent and deposit
from the property row read at approval time, starts at the approval time,
and ends exactly one (JS calendar) year after its start date. -/
theorem claim_C6_lease_terms
    (id : Nat) (now : Date) (db : DB) (app : AppRecord) (prop : PropertyRecord)
    (happ : db.applications.find? (fun a => a.id == id) = some app)
    (hnol : app.leaseId = none)
    (hact : findActiveLease app now db = none)
    (hprop : db.properties.find? (fun pr => pr.id == app.propertyId) = some prop) :
    ∃ l, (updateApplicationStatus id (some "Approved") now db).2.leases =
        db.leases ++ [l] ∧
      l.rent = prop.pricePerMonth ∧ l.deposit = prop.securityDeposit ∧
      l.startDate = now ∧ l.endDate = addOneYear l.startDate ∧
      l.propertyId = app.propertyId ∧ l.tenantCognitoId = app.tenantCognitoId := by
  have hupd := updateStatus_approved_state id now db app prop happ hnol hact hprop
  exact ⟨newLeaseRecord app prop now db, by rw [hupd]; rfl, rfl, rfl, rfl, rfl, rfl, rfl⟩

theorem claim_C6_witness :
    ∃ l, (updateApplicationStatus 1 (some "Approved") d0 dbPending).2.leases =
        dbPending.leases ++ [l] ∧
      l.rent = prop1.pricePerMonth ∧ l.deposit = prop1.securityDeposit ∧
      l.startDate = d0 ∧ l.endDate = addOneYear l.startDate ∧
      l.propertyId = appP.propertyId ∧ l.tenantCognitoId = appP.tenantCognitoId :=
  claim_C6_lease_terms 1 d0 dbPending appP prop1 (by decide) rfl (by decide) (by decide)

/-! ## Next-payment-date arithmetic -/

theorem addMonths_eq (s : Date) (k : Nat) (hd : s.day ≤ 28) :
    addMonths s k = ⟨s.year + (s.month + k) / 12, (s.month + k) % 12, s.day⟩ := by
  unfold addMonths mkDate
  rw [if_pos (le_trans hd (daysInMonth_ge _ _))]

theorem addMonths_zero (s : Date) (hd : s.day ≤ 28) (hm : s.month < 12) :
    addMonths s 0 = s := by
  cases s with
  | mk y m d =>
    rw [addMonths_eq _ 0 hd, Date.mk.injEq]
    simp only at hm
    refine ⟨by dsimp only; omega, by dsimp only; omega, rfl⟩

theorem addMonths_addMonths (s : Date) (a b : Nat) (hd : s.day ≤ 28) :
    addMonths (addMonths s a) b = addMonths s (a + b) := by
  rw [addMonths_eq s a hd]
  rw [addMonths_eq (⟨s.year + (s.month + a) / 12, (s.month + a) % 12, s.day⟩ : Date)
    b hd]
  rw [addMonths_eq s (a + b) hd, Date.mk.injEq]
  refine ⟨by dsimp only; omega, by dsimp only; omega, rfl⟩

theorem addOneMonth_addMonths (s : Date) (k : Nat) (hd : s.day ≤ 28) :
    addOneMonth (addMonths s k) = addMonths s (k + 1) := by
  have h : addOneMonth (addMonths s k) = addMonths (addMonths s k) 1 := rfl
  rw [h, addMonths_addMonths s k 1 hd]

theorem mi_addMonths (s : Date) (k : Nat) (hd : s.day ≤ 28) :
    monthIndex (addMonths s k) = monthIndex s + k := by
  rw [addMonths_eq s k hd]
  unfold monthIndex
  dsimp only
  omega

theorem addMonths_month_lt (s : Date) (k : Nat) (hd : s.day ≤ 28) :
    (addMonths s k).month < 12 := by
  rw [addMonths_eq s k hd]
  dsimp only
  omega

theorem addMonths_day (s : Date) (k : Nat) (hd : s.day ≤ 28) :
    (addMonths s k).day = s.day := by
  rw [addMonths_eq s k hd]

theorem leB_mi {a b : Date} (ha : a.month < 12) (hb : b.month < 12)
    (h : Date.leB a b = true) : monthIndex a ≤ monthIndex b := by
  simp [Date.leB] at h
  unfold monthIndex
  omega

theorem leB_false_ltB {a b : Date} (h : Date.leB a b = false) :
    Date.ltB b a = true := by
  simp [Date.leB] at h
  simp [Date.ltB]
  omega

theorem leB_ltB_absurd {a b : Date} (h1 : Date.leB a b = true)
    (h2 : Date.ltB b a = true) : False := by
  simp [Date.leB] at h1
  simp [Date.ltB] at h2
  omega

theorem leB_addMonths_mono (s : Date) (hd : s.day ≤ 28) {j k : Nat} (h : j ≤ k) :
    Date.leB (addMonths s j) (addMonths s k) = true := by
  rw [addMonths_eq s j hd, addMonths_eq s k hd]
  simp [Date.leB]
  omega

theorem calcNext_char (n : Date) (hn : n.month < 12) :
    ∀ (N : Nat) (s : Date), 12 * n.year + n.month + 1 - monthIndex s ≤ N →
      s.day ≤ 28 → s.month < 12 →
      Date.ltB n (calculateNextPaymentDate s n) = true ∧
      ∃ j, calculateNextPaymentDate s n = addMonths s j ∧
        ∀ i < j, Date.leB (addMonths s i) n = true := by
  intro N
  induction N with
  | zero =>
    intro s hgap hd hm
    have hle : Date.leB s n = false := by
      rcases hfb : Date.leB s n with _ | _
      · rfl
      · have := leB_mi hm hn hfb
        unfold monthIndex at this hgap
        omega
    rw [calcNext_done s n hle]
    exact ⟨leB_false_ltB hle, 0, (addMonths_zero s hd hm).symm, by intro i hi; omega⟩
  | succ N ih =>
    intro s hgap hd hm
    rcases hfb : Date.leB s n with _ | _
    · rw [calcNext_done s n hfb]
      exact ⟨leB_false_ltB hfb, 0, (addMonths_zero s hd hm).symm, by intro i hi; omega⟩
    · rw [calcNext_step s n hfb]
      have hs1 : addOneMonth s = addMonths s 1 := by
        rw [← addOneMonth_addMonths s 0 hd, addMonths_zero s hd hm]
      have hd1 : (addMonths s 1).day ≤ 28 := by
        rw [addMonths_day s 1 hd]; exact hd
      have hm1 : (addMonths s 1).month < 12 := addMonths_month_lt s 1 hd
      have hmi1 : monthIndex (addMonths s 1) = monthIndex s + 1 := mi_addMonths s 1 hd
      have hmis : monthIndex s ≤ 12 * n.year + n.month := by
        have := leB_mi hm hn hfb
        unfold monthIndex at this ⊢
        omega
      have hgap1 : 12 * n.year + n.month + 1 - monthIndex (addMonths s 1) ≤ N := by
        omega
      obtain ⟨h1, j, hj, hall⟩ := ih (addMonths s 1) hgap1 hd1 hm1
      rw [hs1]
      refine ⟨h1, j + 1, ?_, ?_⟩
      · rw [hj, addMonths_addMonths s 1 j hd, Nat.add_comm 1 j]
      · intro i hi
        cases i with
        | zero =>
          rw [addMonths_zero s hd hm]
          exact hfb
        | succ i =>
          have hthis := hall i (by omega)
          rw [addMonths_addMonths s 1 i hd, Nat.add_comm 1 i] at hthis
          exact hthis

def sJan31 : Date := ⟨2024, 0, 31⟩

def nMar15 : Date := ⟨2024, 2, 15⟩

theorem calcNext_sJan31 : calculateNextPaymentDate sJan31 nMar15 = ⟨2024, 3, 2⟩ := by
  rw [calcNext_step _ _ (by decide)]
  rw [show addOneMonth sJan31 = ⟨2024, 2, 2⟩ from by decide]
  rw [calcNext_step _ _ (by decide)]
  rw [show addOneMonth (⟨2024, 2, 2⟩ : Date) = ⟨2024, 3, 2⟩ from by decide]
  exact calcNext_done _ _ (by decide)

/-- C7: the claim describes the result as the smallest date of the form
startDate + k months that is strictly after now; for startDate
Jan 31 2024 and now Mar 15 2024 the iterated `setMonth` loop lands on
Apr 2 2024 (Jan 31 -> Mar 2 -> Apr 2, the day overflowing through
February), while startDate + 2 months = Mar 31 2024 is already strictly
after now and strictly smaller than the returned date, so the returned
date is not the smallest of that form. -/
theorem claim_C7_counterexample :
    addMonths sJan31 2 = ⟨2024, 2, 31⟩ ∧
    Date.ltB nMar15 (addMonths sJan31 2) = true ∧
    Date.ltB (addMonths sJan31 2) (calculateNextPaymentDate sJan31 nMar15) = true := by
  refine ⟨by decide, by decide, ?_⟩
  rw [calcNext_sJan31]
  decide

/-- C7 (amended): `calculateNextPaymentDate` is a pure function of
(startDate, now), and whenever the start date's day of month is at most 28
(so that no step of the loop overflows a month length) the claim holds
verbatim: the result is of the form startDate + k months, is strictly
after now, and is the smallest such date. -/
theorem claim_C7_amended_next_payment (s n : Date) (hd : s.day ≤ 28)
    (hm : s.month < 12) (hn : n.month < 12) :
    Date.ltB n (calculateNextPaymentDate s n) = true ∧
    (∃ j, calculateNextPaymentDate s n = addMonths s j) ∧
    (∀ k, Date.ltB n (addMonths s k) = true →
      Date.leB (calculateNextPaymentDate s n) (addMonths s k) = true) := by
  obtain ⟨h1, j, hj, hall⟩ := calcNext_char n hn
    (12 * n.year + n.month + 1 - monthIndex s) s (le_refl _) hd hm
  refine ⟨h1, ⟨j, hj⟩, ?_⟩
  intro k hk
  by_cases hjk : j ≤ k
  · rw [hj]
    exact leB_addMonths_mono s hd hjk
  · exact (leB_ltB_absurd (hall k (by omega)) hk).elim

theorem claim_C7_witness :
    Date.ltB ⟨2025, 2, 20⟩ (calculateNextPaymentDate d0 ⟨2025, 2, 20⟩) = true ∧
    (∃ j, calculateNextPaymentDate d0 ⟨2025, 2, 20⟩ = addMonths d0 j) ∧
    (∀ k, Date.ltB ⟨2025, 2, 20⟩ (addMonths d0 k) = true →
      Date.leB (calculateNextPaymentDate d0 ⟨2025, 2, 20⟩) (addMonths d0 k) = true) :=
  claim_C7_amended_next_payment d0 ⟨2025, 2, 20⟩ (by decide) (by decide) (by decide)
